import Mathlib

/-!
The extraction tool `deepin-installer-unsquashfs`.

A shallow embedding of `src/app/unsquashfs.cpp`, the tool that mounts a squashfs
image, copies every entry of the mounted tree to a destination folder and
reports its progress.

The operating system and the helper library are a record of responses (`Sys`):
what each call answers for its arguments.  The program state is a record
(`World`): the globals of the translation unit, plus the list of calls made so
far.  Loops whose end depends on those responses run on fuel and return `none`
when the fuel is used up.
-/

namespace Unsquashfs

/-! ## Data -/

/-- Text of a path or of a Qt string, as its sequence of characters. -/
abbrev QString := List Char

/-- Contents of a C char buffer, one number per byte; 0 is the terminator. -/
abbrev Bytes := List Nat

/-- Bytes of a C string literal, without its terminator. -/
def cstr (s : String) : Bytes := s.toList.map Char.toNat

def S_IMODE : Nat := 0o777

def kDefaultDest : QString := "squashfs-root".toList
def kMountPoint : QString := "/dev/shm/installer-unsquashfs".toList
def kExitOk : Int := 0
def kExitErr : Int := 1
def kMaxOpenFd : Nat := 256

/-- File type bits of `st_mode`, with the values of the Linux `<sys/stat.h>`. -/
def S_IFMT : Nat := 0o170000
def S_IFSOCK : Nat := 0o140000
def S_IFLNK : Nat := 0o120000
def S_IFREG : Nat := 0o100000
def S_IFBLK : Nat := 0o060000
def S_IFDIR : Nat := 0o040000
def S_IFCHR : Nat := 0o020000
def S_IFIFO : Nat := 0o010000

def S_ISLNK (m : Nat) : Bool := m &&& S_IFMT == S_IFLNK
def S_ISREG (m : Nat) : Bool := m &&& S_IFMT == S_IFREG
def S_ISDIR (m : Nat) : Bool := m &&& S_IFMT == S_IFDIR
def S_ISCHR (m : Nat) : Bool := m &&& S_IFMT == S_IFCHR
def S_ISBLK (m : Nat) : Bool := m &&& S_IFMT == S_IFBLK
def S_ISFIFO (m : Nat) : Bool := m &&& S_IFMT == S_IFIFO
def S_ISSOCK (m : Nat) : Bool := m &&& S_IFMT == S_IFSOCK

/-- Limits of `<limits.h>` and `<linux/limits.h>`. -/
def PATH_MAX : Nat := 4096
def XATTR_LIST_MAX : Nat := 65536
def XATTR_NAME_MAX : Nat := 255

/-- The fields of `struct stat` that the tool reads. `st_dev` is the device
that holds the entry, `st_rdev` the device a device node stands for. -/
structure Stat where
  st_mode : Nat
  st_dev : Nat
  st_rdev : Nat
  st_uid : Nat
  st_gid : Nat
  st_size : Nat
  deriving DecidableEq, Repr

/-- One call to the system or to the helper library, with its arguments. -/
inductive Call where
  | SpawnCmd (cmd : QString) (args : List QString)
  | CreateDirs (path : QString)
  | CreateParentDirs (path : QString)
  | umask (mask : Nat)
  | fopen (path : QString)
  | fclose
  | nftw (dir : QString)
  | lstat (path : QString)
  | readlink (path : QString)
  | symlink (target dest : QString)
  | open_src (path : QString)
  | open_dest (path : QString)
  | sendfile (count : Nat)
  | close (src dest : QString)
  | mknod (path : QString) (mode dev : Nat)
  | chmod (path : QString) (mode : Nat)
  | lchown (path : QString) (uid gid : Nat)
  | llistxattr (path : QString)
  | lgetxattr (path : QString) (name : Bytes)
  | lsetxattr (path : QString) (name value : Bytes)
  | WriteProgress (progress : Int)
  deriving DecidableEq, Repr

/-- Responses of the operating system, of Qt and of the helpers of
`base/command.h` and `base/file_util.h`: what each call answers for its
arguments. A failed call is `false` or `none`. -/
structure Sys where
  /-- Answer of `QFile::exists`. -/
  file_exists : QString → Bool
  /-- Answer of `QFile::size`. -/
  file_size : QString → Nat
  /-- Answer of `installer::SpawnCmd`: whether the command succeeded. -/
  SpawnCmd : QString → List QString → Bool
  /-- Answer of `installer::CreateDirs`. -/
  CreateDirs : QString → Bool
  /-- Absolute path of a folder, as `QDir` resolves it. -/
  absolutePath : QString → QString
  /-- The file mode mask in force when the tool starts. -/
  old_mask : Nat
  /-- Whether `fopen(path, "w")` gives a stream. -/
  fopen_w : QString → Bool
  /-- Whether standard output can be repositioned. -/
  stdout_seekable : Bool
  /-- What the n-th call of `nftw` on a folder visits, in order, each entry with
  the `stat` buffer handed to the handler, and whether the walk itself fails
  once these entries are visited. -/
  walk : Nat → QString → List (QString × Stat) × Bool
  lstat : QString → Option Stat
  /-- The link text; `none` when `readlink` returns a negative length. -/
  readlink : QString → Option QString
  symlink : QString → QString → Bool
  /-- Whether `open(path, O_RDONLY)` gives a descriptor. -/
  open_rdonly : QString → Bool
  /-- Whether `open(path, O_CREAT | O_RDWR, ...)` gives a descriptor. -/
  open_creat : QString → Bool
  /-- Return value of `sendfile` from source to destination for a byte count. -/
  sendfile : QString → QString → Nat → Int
  mknod : QString → Nat → Nat → Bool
  chmod : QString → Nat → Bool
  lchown : QString → Nat → Nat → Bool
  /-- The packed name list; `none` when `llistxattr` returns a negative length. -/
  llistxattr : QString → Nat → Option Bytes
  /-- The value of a named attribute read into a buffer of the given size;
  `none` when `lgetxattr` returns -1. -/
  lgetxattr : QString → Bytes → Nat → Option Bytes
  lsetxattr : QString → Bytes → Bytes → Bool

/-- A buffered stdio stream (`FILE*`) on a file: `content` is what the file
holds, `pos` the file position, `buffer` the text that has been printed to the
stream and is not yet written to the file. The tool never changes the
buffering of its stream and never calls `fflush`: printed text reaches the file
when the stream is repositioned or closed. -/
structure Stream where
  is_stdout : Bool
  seekable : Bool
  content : List Char
  pos : Nat
  buffer : List Char
  deriving DecidableEq, Repr

/-- The stream that `fopen(path, "w")` gives: an empty file, at its start. -/
def Stream.emptyFile : Stream :=
  { is_stdout := false, seekable := true, content := [], pos := 0, buffer := [] }

/-- The globals of the translation unit and the calls made so far. -/
structure World where
  g_progress_fd : Stream
  g_src_dir : QString
  g_dest_dir : QString
  g_total_files : Int
  g_current_files : Int
  log : List Call

/-- State at program start. The stream is set by `CopyFiles` before its first
use; until then the field holds standard output. -/
def World.init : World :=
  { g_progress_fd := { is_stdout := true, seekable := false, content := [], pos := 0,
                       buffer := [] },
    g_src_dir := [], g_dest_dir := [], g_total_files := 0, g_current_files := 0, log := [] }

/-- Record a call. -/
def World.call (w : World) (c : Call) : World := { w with log := w.log ++ [c] }

/-! ## stdio -/

/-- The buffered text is written to the file at the file position, over what
is there, never truncating, and the buffer is emptied. -/
def fflush (f : Stream) : Stream :=
  { f with content := f.content.take f.pos ++ f.buffer ++ f.content.drop (f.pos + f.buffer.length),
           pos := f.pos + f.buffer.length,
           buffer := [] }

/-- Stream position set to the start: `fseek(f, 0, SEEK_SET)`. The buffered
text is written out first; the position of a stream that cannot be
repositioned stays where it is. -/
def fseek_set0 (f : Stream) : Stream :=
  if (fflush f).seekable then { fflush f with pos := 0 } else fflush f

/-- Text printed to the stream: it goes to the buffer. The buffer does not
fill up: every print of the tool follows a repositioning and is at most 11
characters long. -/
def fputs (s : List Char) (f : Stream) : Stream := { f with buffer := f.buffer ++ s }

/-- The stream is closed: `fclose` writes the buffered text to the file. -/
def fclose (f : Stream) : Stream := fflush f

/-- Decimal text of a natural number. -/
def decimal (n : Nat) : List Char :=
  if n = 0 then ['0'] else (Nat.digits 10 n).reverse.map Nat.digitChar

/-- Text that the `%d` conversion prints. -/
def printf_d (v : Int) : List Char :=
  if v < 0 then '-' :: decimal v.natAbs else decimal v.natAbs

/-- Source lines 61-65. -/
def WriteProgress (progress : Int) (w : World) : World :=
  { w with g_progress_fd := fputs (printf_d progress) (fseek_set0 w.g_progress_fd),
           log := w.log ++ [Call.WriteProgress progress] }

/-! ## Double arithmetic

A finite `double` is the rational it stands for. The result of an operation is
the exact result rounded to 53 significant bits, ties to even. Subnormal
results and overflow are not modelled: the tool divides a count times one
hundred by a count, both 32-bit integers. -/

/-- Nearest integer, ties to the even one. -/
def roundHalfEven (x : ℚ) : ℤ :=
  if x - ⌊x⌋ < 1 / 2 then ⌊x⌋
  else if 1 / 2 < x - ⌊x⌋ then ⌊x⌋ + 1
  else if ⌊x⌋ % 2 = 0 then ⌊x⌋ else ⌊x⌋ + 1

/-- Spacing of the doubles in the binade of `q`. -/
def ulp (q : ℚ) : ℚ := (2 : ℚ) ^ (Int.log 2 |q| - 52)

/-- The double nearest to `q`. -/
def fl (q : ℚ) : ℚ := roundHalfEven (q / ulp q) * ulp q

/-- Product of two doubles. -/
def fmul (x y : ℚ) : ℚ := fl (x * y)

/-- Quotient of two doubles. -/
def fdiv (x y : ℚ) : ℚ := fl (x / y)

/-- Qt's `qFloor`: the floor of a double, as an int. -/
def qFloor (v : ℚ) : Int := ⌊v⌋

/-- Source line 243: `qFloor(g_current_files * 100.0 / g_total_files)`. -/
def progressOf (g_current_files g_total_files : Int) : Int :=
  qFloor (fdiv (fmul (g_current_files : ℚ) 100) (g_total_files : ℚ))

/-! ## Qt strings and paths -/

/-- Worker of `QString_remove`: `skip` counts the characters of a found
occurrence that are still to be dropped. -/
def QString_removeGo (str : QString) : Nat → QString → QString
  | _, [] => []
  | skip + 1, _ :: cs => QString_removeGo str skip cs
  | 0, c :: cs =>
    if str.isPrefixOf (c :: cs) then QString_removeGo str (str.length - 1) cs
    else c :: QString_removeGo str 0 cs

/-- Qt's `QString::remove(const QString &str)`: every occurrence of `str` is
removed, searching on from where the last one was taken out; an empty `str`
removes nothing. -/
def QString_remove (s str : QString) : QString :=
  if str.length = 0 then s else QString_removeGo str 0 s

/-- Qt's `QString::startsWith(QChar)`. -/
def QString_startsWith (s : QString) (c : Char) : Bool := s.head? == some c

/-- Qt's `QString::mid(position)`. -/
def QString_mid (s : QString) (position : Nat) : QString := s.drop position

/-- Qt's `QDir(dir).absoluteFilePath(fileName)` on Unix: an absolute file name
is returned as it is, any other is put after the absolute path of the folder. -/
def QDir_absoluteFilePath (env : Sys) (dir fileName : QString) : QString :=
  if QString_startsWith fileName '/' then fileName
  else if fileName.length = 0 then env.absolutePath dir
  else if (env.absolutePath dir).getLast? == some '/' then env.absolutePath dir ++ fileName
  else env.absolutePath dir ++ '/' :: fileName

/-- Source lines 174-179: where `CopyItem` puts the entry found at `fpath`. -/
def dest_filepath (env : Sys) (w : World) (fpath : QString) : QString :=
  let relative_path := QString_remove fpath w.g_src_dir
  let relative_path :=
    if QString_startsWith relative_path '/' then QString_mid relative_path 1 else relative_path
  QDir_absoluteFilePath env w.g_dest_dir relative_path

/-! ## Copy of one entry -/

/-- Loop of source lines 88-96, with `num_to_read` of type `size_t`. -/
def SendFile_loop (env : Sys) (src_file dest_file : QString) :
    Nat → Nat → World → Option (Bool × World)
  | 0, num_to_read, w => if num_to_read = 0 then some (true, w) else none
  | fuel + 1, num_to_read, w =>
    if num_to_read = 0 then some (true, w)
    else
      let num_sent := env.sendfile src_file dest_file num_to_read
      let w := w.call (Call.sendfile num_to_read)
      if num_sent ≤ 0 then some (false, w)
      else SendFile_loop env src_file dest_file fuel
        (((num_to_read : Int) - num_sent) % 2 ^ 64).toNat w

/-- Source lines 69-102. The two early exits are `return 1;` in a function
that returns `bool`: the caller receives `true`. -/
def SendFile (env : Sys) (fuel : Nat) (src_file dest_file : QString) (file_size : Nat)
    (w : World) : Option (Bool × World) :=
  let w := w.call (Call.open_src src_file)
  if !env.open_rdonly src_file then some ((1 : Nat) != 0, w)
  else
    let w := w.call (Call.open_dest dest_file)
    if !env.open_creat dest_file then some ((1 : Nat) != 0, w)
    else
      match SendFile_loop env src_file dest_file fuel file_size w with
      | none => none
      | some (ok, w) => some (ok, w.call (Call.close src_file dest_file))

/-- Source lines 104-124. -/
def CopySymLink (env : Sys) (src_file dest_file : QString) (w : World) : Bool × World :=
  let w := w.call (Call.readlink src_file)
  match env.readlink src_file with
  | none => (false, w)
  | some link =>
    if (link.take PATH_MAX).length = 0 then (false, w)
    else
      let target := link.take PATH_MAX
      let w := w.call (Call.symlink target dest_file)
      if !env.symlink target dest_file then (false, w) else (true, w)

/-- C's `strlen` at offset `i` of a buffer; bytes past the end of the buffer
count as a terminator. -/
def strlen (buf : Bytes) (i : Nat) : Nat := ((buf.drop i).takeWhile (· != 0)).length

/-- The C string that starts at offset `i` of a buffer. -/
def cstring (buf : Bytes) (i : Nat) : Bytes := (buf.drop i).takeWhile (· != 0)

/-- Loop of source lines 139-154, from offset `ns` on. The step of the source
is `ns += strlen(&list[ns] + 1)`: the length of the string that starts one
byte after `ns`. -/
def CopyXAttr_loop (env : Sys) (src_file dest_file : QString) (list : Bytes) :
    Nat → Nat → World → Option (Bool × World)
  | 0, ns, w => if ns < list.length then none else some (true, w)
  | fuel + 1, ns, w =>
    if ns < list.length then
      let w := w.call (Call.lgetxattr src_file (cstring list ns))
      match env.lgetxattr src_file (cstring list ns) XATTR_NAME_MAX with
      | none => some (true, w)
      | some value =>
        let w := w.call (Call.lsetxattr dest_file (cstring list ns) value)
        if !env.lsetxattr dest_file (cstring list ns) value then some (false, w)
        else CopyXAttr_loop env src_file dest_file list fuel (ns + strlen list (ns + 1)) w
    else some (true, w)

/-- Source lines 127-158. -/
def CopyXAttr (env : Sys) (fuel : Nat) (src_file dest_file : QString) (w : World) :
    Option (Bool × World) :=
  let w := w.call (Call.llistxattr src_file)
  match env.llistxattr src_file XATTR_LIST_MAX with
  | none => some (false, w)
  | some list => CopyXAttr_loop env src_file dest_file list fuel 0 w

/-- Source lines 191-214: the entry is made at the destination, by its type.
The test for a regular file reads the buffer `sb` of the walk, the others the
buffer `st` that `CopyItem` filled itself. An unknown type leaves `ok` true. -/
def CopyItem_create (env : Sys) (fuel : Nat) (fpath dest_file : QString) (sb st : Stat)
    (w : World) : Option (Bool × World) :=
  let mode := st.st_mode &&& S_IMODE
  if S_ISLNK st.st_mode then some (CopySymLink env fpath dest_file w)
  else if S_ISREG sb.st_mode then SendFile env fuel fpath dest_file st.st_size w
  else if S_ISDIR st.st_mode then
    some (env.CreateDirs dest_file, w.call (Call.CreateDirs dest_file))
  else if S_ISCHR st.st_mode then
    some (env.mknod dest_file (mode ||| S_IFCHR) st.st_dev,
      w.call (Call.mknod dest_file (mode ||| S_IFCHR) st.st_dev))
  else if S_ISBLK st.st_mode then
    some (env.mknod dest_file (mode ||| S_IFBLK) st.st_dev,
      w.call (Call.mknod dest_file (mode ||| S_IFBLK) st.st_dev))
  else if S_ISFIFO st.st_mode then
    some (env.mknod dest_file (mode ||| S_IFIFO) st.st_dev,
      w.call (Call.mknod dest_file (mode ||| S_IFIFO) st.st_dev))
  else if S_ISSOCK st.st_mode then
    some (env.mknod dest_file (mode ||| S_IFSOCK) st.st_dev,
      w.call (Call.mknod dest_file (mode ||| S_IFSOCK) st.st_dev))
  else some (true, w)

/-- Source lines 221-246: mode, owner and attributes are set on the new entry,
the count of copied files goes up by one and the progress is written. -/
def CopyItem_meta (env : Sys) (fuel : Nat) (fpath dest_file : QString) (st : Stat)
    (w : World) : Option (Int × World) :=
  let mode := st.st_mode &&& S_IMODE
  let ok := true
  let (ok, w) :=
    if !S_ISLNK st.st_mode then
      (if !env.chmod dest_file mode then false else ok, w.call (Call.chmod dest_file mode))
    else (ok, w)
  let w := w.call (Call.lchown dest_file st.st_uid st.st_gid)
  let ok := if !env.lchown dest_file st.st_uid st.st_gid then false else ok
  match CopyXAttr env fuel fpath dest_file w with
  | none => none
  | some (xattr_ok, w) =>
    let ok := if !xattr_ok then false else ok
    let w := { w with g_current_files := w.g_current_files + 1 }
    let progress := progressOf w.g_current_files w.g_total_files
    let w := WriteProgress progress w
    some (if ok then 0 else 1, w)

/-- Source lines 161-247: the handler of the copy walk. -/
def CopyItem (env : Sys) (fuel : Nat) (fpath : QString) (sb : Stat) (w : World) :
    Option (Int × World) :=
  let w := w.call (Call.lstat fpath)
  match env.lstat fpath with
  | none => some (1, w)
  | some st =>
    let dest_file := dest_filepath env w fpath
    let w := w.call (Call.CreateParentDirs dest_file)
    match CopyItem_create env fuel fpath dest_file sb st w with
    | none => none
    | some (ok, w) =>
      if !ok then some (1, w)
      else CopyItem_meta env fuel fpath dest_file st w

/-- Source lines 249-257: the handler of the count walk. -/
def CountItem (_fpath : QString) (_sb : Stat) (w : World) : Option (Int × World) :=
  some (0, { w with g_total_files := w.g_total_files + 1 })

/-- The walk of `nftw` over the entries it visits: the handler is called on
each in turn, a non-zero answer stops the walk and is returned; at the end
the walk returns 0, or -1 when the walk itself failed. -/
def nftw (fn : QString → Stat → World → Option (Int × World)) :
    List (QString × Stat) → Bool → World → Option (Int × World)
  | [], walk_fails, w => some (if walk_fails then -1 else 0, w)
  | (fpath, sb) :: rest, walk_fails, w =>
    match fn fpath sb w with
    | none => none
    | some (r, w) => if r ≠ 0 then some (r, w) else nftw fn rest walk_fails w

/-- Source lines 260-305. -/
def CopyFiles (env : Sys) (fuel : Nat) (src_dir dest_dir progress_file : QString)
    (w : World) : Option (Bool × World) :=
  let w := w.call (Call.CreateDirs dest_dir)
  if !env.CreateDirs dest_dir then some (false, w)
  else
    let w := w.call (Call.umask 0)
    let stdout : Stream :=
      { is_stdout := true, seekable := env.stdout_seekable, content := [], pos := 0,
        buffer := [] }
    let (fd, w) :=
      if progress_file.length ≠ 0 then
        (if env.fopen_w progress_file then Stream.emptyFile else stdout,
          w.call (Call.fopen progress_file))
      else (stdout, w)
    let w := { w with g_progress_fd := fd, g_src_dir := src_dir, g_dest_dir := dest_dir }
    let w := w.call (Call.nftw src_dir)
    match nftw CountItem (env.walk 0 src_dir).1 (env.walk 0 src_dir).2 w with
    | none => none
    | some (r, w) =>
      let ok := r == 0
      let copied : Option (Bool × World) :=
        if !ok || w.g_total_files == 0 then some (ok, w)
        else
          match nftw (CopyItem env fuel) (env.walk 1 src_dir).1 (env.walk 1 src_dir).2
              (w.call (Call.nftw src_dir)) with
          | none => none
          | some (r, w) => some (r == 0, w)
      match copied with
      | none => none
      | some (ok, w) =>
        let w := w.call (Call.umask env.old_mask)
        let w := if ok then WriteProgress 100 w else w
        let w :=
          if !w.g_progress_fd.is_stdout then
            { w with g_progress_fd := fclose w.g_progress_fd }.call Call.fclose
          else w
        some (ok, w)

/-- Source lines 308-322. -/
def MountFs (env : Sys) (src mount_point : QString) (w : World) : Bool × World :=
  let w := w.call (Call.CreateDirs mount_point)
  if !env.CreateDirs mount_point then (false, w)
  else
    let w := w.call (Call.SpawnCmd "mount".toList [src, mount_point])
    (env.SpawnCmd "mount".toList [src, mount_point], w)

/-- Source lines 325-332. -/
def UnMountFs (env : Sys) (mount_point : QString) (w : World) : Bool × World :=
  (env.SpawnCmd "umount".toList [mount_point],
    w.call (Call.SpawnCmd "umount".toList [mount_point]))

/-! ## The program -/

/-- What `QCommandLineParser` makes of the command line. -/
structure Args where
  /-- Whether `parser.parse` accepted the arguments. -/
  parse_ok : Bool
  /-- Whether `--version` or `--help` is set. -/
  version_or_help : Bool
  positional_args : List QString
  /-- Value of `--dest`, `squashfs-root` when not given. -/
  dest : QString
  /-- Value of `--progress`, empty when not given. -/
  progress : QString

/-- The functions of the tool that `main` calls. -/
inductive Proc where
  | MountFs
  | CopyFiles
  | UnMountFs
  deriving DecidableEq, Repr

/-- What a finished run leaves: the exit code, the functions that `main`
called, in order, and the state at the call of `exit`. -/
structure Exit where
  code : Int
  called : List Proc
  world : World

/-- Source lines 336-406. `parser.showHelp(code)` and `exit(code)` end the
process with that code. -/
def main (env : Sys) (fuel : Nat) (args : Args) : Option Exit :=
  let w := World.init
  if !args.parse_ok then some ⟨kExitErr, [], w⟩
  else if args.version_or_help then some ⟨kExitOk, [], w⟩
  else
    match args.positional_args with
    | [src] =>
      if !env.file_exists src then some ⟨kExitErr, [], w⟩
      else if env.file_size src = 0 then some ⟨kExitErr, [], w⟩
      else
        let mount_point := kMountPoint
        let dest_dir := args.dest
        let progress_file := args.progress
        let called := [Proc.MountFs]
        let (mounted, w) := MountFs env src mount_point w
        if !mounted then some ⟨kExitErr, called, w⟩
        else
          let called := called ++ [Proc.CopyFiles]
          match CopyFiles env fuel mount_point dest_dir progress_file w with
          | none => none
          | some (ok, w) =>
            let called := called ++ [Proc.UnMountFs]
            let (unmounted, w) := UnMountFs env mount_point w
            if !unmounted then some ⟨kExitErr, called, w⟩
            else some ⟨if ok then kExitOk else kExitErr, called, w⟩
    | _ => some ⟨kExitErr, [], w⟩

/-! ## Sample systems -/

/-- A system on which every call succeeds: the mounted tree is empty, links
read as `b.txt`, transfers move all that is asked for, entries have no
extended attributes. -/
def sysOk : Sys :=
  { file_exists := fun _ => true
    file_size := fun _ => 4096
    SpawnCmd := fun _ _ => true
    CreateDirs := fun _ => true
    absolutePath := fun dir => dir
    old_mask := 0o022
    fopen_w := fun _ => true
    stdout_seekable := false
    walk := fun _ _ => ([], false)
    lstat := fun _ => none
    readlink := fun _ => some "b.txt".toList
    symlink := fun _ _ => true
    open_rdonly := fun _ => true
    open_creat := fun _ => true
    sendfile := fun _ _ count => count
    mknod := fun _ _ _ => true
    chmod := fun _ _ => true
    lchown := fun _ _ _ => true
    llistxattr := fun _ _ => some []
    lgetxattr := fun _ _ _ => some []
    lsetxattr := fun _ _ _ => true }

/-- A command line with one image and a destination. -/
def argsOk : Args :=
  { parse_ok := true, version_or_help := false,
    positional_args := ["/cdrom/live/filesystem.squashfs".toList],
    dest := "/target".toList, progress := "/tmp/progress".toList }

/-- The system `sysOk`, but the destination folder cannot be made. -/
def sysNoDest : Sys := { sysOk with CreateDirs := fun path => path != "/target".toList }

/-- A regular file of 12 bytes, mode 0640, on device 7:0. -/
def statReg : Stat :=
  { st_mode := 0o100640, st_dev := 0x700, st_rdev := 0, st_uid := 1000, st_gid := 1000,
    st_size := 12 }

/-- The state in the middle of a copy pass over three entries from the mount
point to `/target`, before the second entry. -/
def worldMid : World :=
  { World.init with
    g_progress_fd := { is_stdout := false, seekable := true, content := [], pos := 0,
                       buffer := ['3', '3'] },
    g_src_dir := kMountPoint, g_dest_dir := "/target".toList,
    g_total_files := 3, g_current_files := 1 }

/-- The system `sysOk` with a regular file at every path that cannot be opened
for reading. -/
def sysNoOpenSrc : Sys :=
  { sysOk with lstat := fun _ => some statReg, open_rdonly := fun _ => false }

/-- The system `sysOk` with a regular file at every path, where no destination
can be opened for writing. -/
def sysNoOpenDest : Sys :=
  { sysOk with lstat := fun _ => some statReg, open_creat := fun _ => false }

/-- The system `sysOk` where every entry carries the one attribute `user.a`
and every attribute name can be read and set. -/
def sysXattrOk : Sys :=
  { sysOk with
    llistxattr := fun _ _ => some (cstr "user.a" ++ [0])
    lgetxattr := fun _ _ _ => some (cstr "v") }

/-- The system `sysOk` where every entry carries the two attributes `user.a`
and `user.b`: an attribute that the entry has can be read, a name that it does
not have cannot, and every attribute can be set. -/
def sysXattrTwo : Sys :=
  { sysOk with
    llistxattr := fun _ _ => some (cstr "user.a" ++ [0] ++ cstr "user.b" ++ [0])
    lgetxattr := fun _ name _ =>
      if name = cstr "user.a" then some (cstr "v1")
      else if name = cstr "user.b" then some (cstr "v2")
      else none }

/-- A character device, major 1 minor 3, mode 0666, in a filesystem that is on
device 7:0. -/
def statChr : Stat :=
  { st_mode := 0o020666, st_dev := 0x700, st_rdev := 0x103, st_uid := 0, st_gid := 0,
    st_size := 0 }

/-- The system `sysOk` with that character device at every path. -/
def sysChr : Sys := { sysOk with lstat := fun _ => some statChr }

/-- A regular file with mode 04755: set-user-ID, rwxr-xr-x. -/
def statSuid : Stat :=
  { st_mode := 0o104755, st_dev := 0x700, st_rdev := 0, st_uid := 0, st_gid := 0,
    st_size := 12 }

/-- The system `sysOk` with that set-user-ID file at every path. -/
def sysSuid : Sys := { sysOk with lstat := fun _ => some statSuid }

/-- The system `sysOk` with a regular file at every path that carries the one
attribute `user.a`, whose value cannot be read. -/
def sysGetFails : Sys :=
  { sysOk with
    lstat := fun _ => some statReg
    llistxattr := fun _ _ => some (cstr "user.a" ++ [0])
    lgetxattr := fun _ _ _ => none }

/-- The `mknod` calls of a log: path, mode and device number. -/
def mknodCalls (log : List Call) : List (QString × Nat × Nat) :=
  log.filterMap fun c =>
    match c with
    | Call.mknod path mode dev => some (path, mode, dev)
    | _ => none

/-- The `chmod` calls of a log: path and mode. -/
def chmodCalls (log : List Call) : List (QString × Nat) :=
  log.filterMap fun c =>
    match c with
    | Call.chmod path mode => some (path, mode)
    | _ => none

/-- The metadata calls of a log: `chmod`, `lchown` and the attribute calls. -/
def metaCalls (log : List Call) : List Call :=
  log.filter fun c =>
    match c with
    | Call.chmod _ _ => true
    | Call.lchown _ _ _ => true
    | Call.llistxattr _ => true
    | Call.lgetxattr _ _ => true
    | Call.lsetxattr _ _ _ => true
    | _ => false

/-- The values that a copy pass hands to `WriteProgress` when `t` entries are
expected and `k` entries complete, one value per completed entry (source
lines 242-244), followed by the literal 100 when the pass succeeds (line 297).
`CopyFiles_progressCalls` shows that these are the calls of `CopyFiles`. -/
def progressCalls (t k : Nat) (success : Bool) : List Int :=
  (List.range k).map (fun (i : Nat) => progressOf ((i : Int) + 1) (t : Int)) ++ (if success then [100] else [])

/-- The state after a sequence of `WriteProgress` calls. -/
def writeAll (values : List Int) (w : World) : World :=
  values.foldl (fun w v => WriteProgress v w) w

/-- The values of the `WriteProgress` calls of a log, in order. -/
def progressWrites (log : List Call) : List Int :=
  log.filterMap fun c =>
    match c with
    | Call.WriteProgress v => some v
    | _ => none

/-- The part of the state that the progress report depends on: the stream, the
two counts and the values written so far. -/
def World.progressState (w : World) : Stream × Int × Int × List Int :=
  (w.g_progress_fd, w.g_total_files, w.g_current_files, progressWrites w.log)

/-- The values written for the next `k` entries that complete, when `c`
entries are complete and `t` are expected. -/
def entryValues (c t : Int) (k : Nat) : List Int :=
  (List.range k).map (fun (i : Nat) => progressOf (c + (i : Int) + 1) t)

/-- The system `sysOk` with one regular file in the mounted tree, where the
count walk visits the file and then fails, and the copy walk would visit the
file and end well. -/
def sysCountFails : Sys :=
  { sysOk with
    lstat := fun _ => some statReg
    walk := fun n _ => ([(kMountPoint ++ "/a/b.txt".toList, statReg)], n == 0) }

/-- The state in which the copy walk of `sysCountFails` would start: the empty
progress file, both roots set, one entry counted. -/
def worldCounted : World :=
  { World.init with
    g_progress_fd := Stream.emptyFile,
    g_src_dir := kMountPoint, g_dest_dir := "/target".toList,
    g_total_files := 1, g_current_files := 0 }

/-! ## Exit code and call order of `main` -/

/-- C1: on valid arguments (one image that exists and is not empty), and
whatever MountFs, CopyFiles and UnMountFs answer, `main` exits with code 0
exactly when all three succeeded, and with code 1 otherwise. -/
theorem main_exit_code (env : Sys) (fuel : Nat) (args : Args) (src : QString)
    (copy_ok : Bool) (w1 : World)
    (hparse : args.parse_ok = true) (hhelp : args.version_or_help = false)
    (hpos : args.positional_args = [src])
    (hexists : env.file_exists src = true) (hsize : env.file_size src ≠ 0)
    (hcopy : (MountFs env src kMountPoint World.init).1 = true →
      CopyFiles env fuel kMountPoint args.dest args.progress
        (MountFs env src kMountPoint World.init).2 = some (copy_ok, w1)) :
    ∃ e, main env fuel args = some e ∧
      (e.code = 0 ↔ ((MountFs env src kMountPoint World.init).1 = true ∧ copy_ok = true ∧
        (UnMountFs env kMountPoint w1).1 = true)) ∧
      (e.code = 0 ∨ e.code = 1) := by
  cases hm : (MountFs env src kMountPoint World.init).1
  · refine ⟨⟨kExitErr, [Proc.MountFs], (MountFs env src kMountPoint World.init).2⟩, ?_, ?_, ?_⟩
    · simp [main, hparse, hhelp, hpos, hexists, hsize, hm]
    · simp [kExitErr]
    · simp [kExitErr]
  · have hc := hcopy hm
    cases hu : (UnMountFs env kMountPoint w1).1
    · refine ⟨⟨kExitErr, [Proc.MountFs, Proc.CopyFiles, Proc.UnMountFs],
        (UnMountFs env kMountPoint w1).2⟩, ?_, ?_, ?_⟩
      · simp [main, hparse, hhelp, hpos, hexists, hsize, hm, hc, hu]
      · simp [kExitErr]
      · simp [kExitErr]
    · refine ⟨⟨if copy_ok then kExitOk else kExitErr,
        [Proc.MountFs, Proc.CopyFiles, Proc.UnMountFs], (UnMountFs env kMountPoint w1).2⟩, ?_, ?_, ?_⟩
      · simp [main, hparse, hhelp, hpos, hexists, hsize, hm, hc, hu]
      · cases copy_ok <;> simp [kExitErr, kExitOk]
      · cases copy_ok <;> simp [kExitErr, kExitOk]

theorem main_exit_code_witness :
    ∃ w1, CopyFiles sysOk 0 kMountPoint argsOk.dest argsOk.progress
        (MountFs sysOk "/cdrom/live/filesystem.squashfs".toList kMountPoint World.init).2
        = some (true, w1) ∧
      ∃ e, main sysOk 0 argsOk = some e ∧
        (e.code = 0 ↔
          ((MountFs sysOk "/cdrom/live/filesystem.squashfs".toList kMountPoint World.init).1 = true
            ∧ true = true ∧ (UnMountFs sysOk kMountPoint w1).1 = true)) ∧
        (e.code = 0 ∨ e.code = 1) :=
  ⟨_, rfl, main_exit_code sysOk 0 argsOk "/cdrom/live/filesystem.squashfs".toList true _
    rfl rfl rfl rfl (by decide) (fun _ => rfl)⟩

/-- C2: on valid arguments, when MountFs fails `main` calls neither CopyFiles
nor UnMountFs; when MountFs succeeds, and whatever CopyFiles answers, `main`
calls UnMountFs exactly once, after CopyFiles. -/
theorem main_unmount_once (env : Sys) (fuel : Nat) (args : Args) (src : QString)
    (copy_ok : Bool) (w1 : World)
    (hparse : args.parse_ok = true) (hhelp : args.version_or_help = false)
    (hpos : args.positional_args = [src])
    (hexists : env.file_exists src = true) (hsize : env.file_size src ≠ 0)
    (hcopy : (MountFs env src kMountPoint World.init).1 = true →
      CopyFiles env fuel kMountPoint args.dest args.progress
        (MountFs env src kMountPoint World.init).2 = some (copy_ok, w1)) :
    ∃ e, main env fuel args = some e ∧
      ((MountFs env src kMountPoint World.init).1 = false →
        e.called.count Proc.CopyFiles = 0 ∧ e.called.count Proc.UnMountFs = 0) ∧
      ((MountFs env src kMountPoint World.init).1 = true →
        e.called.count Proc.UnMountFs = 1 ∧
        e.called = [Proc.MountFs, Proc.CopyFiles, Proc.UnMountFs] ∧
        e.world.log.getLast? = some (Call.SpawnCmd "umount".toList [kMountPoint])) := by
  cases hm : (MountFs env src kMountPoint World.init).1
  · refine ⟨⟨kExitErr, [Proc.MountFs], (MountFs env src kMountPoint World.init).2⟩, ?_, ?_, ?_⟩
    · simp [main, hparse, hhelp, hpos, hexists, hsize, hm]
    · intro _; exact ⟨rfl, rfl⟩
    · intro h; cases h
  · have hc := hcopy hm
    cases hu : (UnMountFs env kMountPoint w1).1
    · refine ⟨⟨kExitErr, [Proc.MountFs, Proc.CopyFiles, Proc.UnMountFs],
        (UnMountFs env kMountPoint w1).2⟩, ?_, ?_, ?_⟩
      · simp [main, hparse, hhelp, hpos, hexists, hsize, hm, hc, hu]
      · intro h; cases h
      · intro _; exact ⟨rfl, rfl, by simp [UnMountFs, World.call]⟩
    · refine ⟨⟨if copy_ok then kExitOk else kExitErr,
        [Proc.MountFs, Proc.CopyFiles, Proc.UnMountFs], (UnMountFs env kMountPoint w1).2⟩, ?_, ?_, ?_⟩
      · simp [main, hparse, hhelp, hpos, hexists, hsize, hm, hc, hu]
      · intro h; cases h
      · intro _; exact ⟨rfl, rfl, by simp [UnMountFs, World.call]⟩

theorem main_unmount_once_witness :
    ∃ w1, CopyFiles sysNoDest 0 kMountPoint argsOk.dest argsOk.progress
        (MountFs sysNoDest "/cdrom/live/filesystem.squashfs".toList kMountPoint World.init).2
        = some (false, w1) ∧
      ∃ e, main sysNoDest 0 argsOk = some e ∧
        ((MountFs sysNoDest "/cdrom/live/filesystem.squashfs".toList kMountPoint World.init).1
            = false →
          e.called.count Proc.CopyFiles = 0 ∧ e.called.count Proc.UnMountFs = 0) ∧
        ((MountFs sysNoDest "/cdrom/live/filesystem.squashfs".toList kMountPoint World.init).1
            = true →
          e.called.count Proc.UnMountFs = 1 ∧
          e.called = [Proc.MountFs, Proc.CopyFiles, Proc.UnMountFs] ∧
          e.world.log.getLast? = some (Call.SpawnCmd "umount".toList [kMountPoint])) :=
  ⟨_, rfl, main_unmount_once sysNoDest 0 argsOk "/cdrom/live/filesystem.squashfs".toList false _
    rfl rfl rfl rfl (by decide) (fun _ => rfl)⟩

/-! ## Failures of the creation step -/

/-- C3, the code at the failing inputs: a regular file whose source cannot be
opened, and one whose destination cannot be opened, with every later call
succeeding. `CopyItem` returns 0 for both, without a transfer, and the walk
goes on: `SendFile` reports the failed `open` with `return 1`, which is
`true` for its `bool` result. -/
theorem CopyItem_open_failure_returns_zero :
    (CopyItem sysNoOpenSrc 1 (kMountPoint ++ "/a/b.txt".toList) statReg worldMid).map Prod.fst
        = some 0 ∧
    (CopyItem sysNoOpenDest 1 (kMountPoint ++ "/a/b.txt".toList) statReg worldMid).map Prod.fst
        = some 0 ∧
    (SendFile sysNoOpenSrc 1 (kMountPoint ++ "/a/b.txt".toList) "/target/a/b.txt".toList 12
        worldMid).map Prod.fst = some true ∧
    (SendFile sysNoOpenDest 1 (kMountPoint ++ "/a/b.txt".toList) "/target/a/b.txt".toList 12
        worldMid).map Prod.fst = some true := by
  refine ⟨?_, ?_, ?_, ?_⟩ <;> rfl

/-! ## Destination paths -/

/-- C4, the code at the failing input: with the mount point as source root and
`/target` as destination, the entry at `a/dev/shm/installer-unsquashfs/x`,
whose relative path holds the text of the source root, is created at
`/target/a/x`, which is where the entry `a/x` is created too. -/
theorem dest_filepath_collision :
    dest_filepath sysOk worldMid
        (kMountPoint ++ '/' :: "a/dev/shm/installer-unsquashfs/x".toList)
      = "/target/a/x".toList ∧
    dest_filepath sysOk worldMid (kMountPoint ++ '/' :: "a/x".toList) = "/target/a/x".toList ∧
    "a/dev/shm/installer-unsquashfs/x".toList ≠ "a/x".toList ∧
    worldMid.g_src_dir = kMountPoint ∧
    QDir_absoluteFilePath sysOk worldMid.g_dest_dir "a/dev/shm/installer-unsquashfs/x".toList
      = "/target/a/dev/shm/installer-unsquashfs/x".toList := by
  refine ⟨?_, ?_, ?_, ?_, ?_⟩ <;> decide

/-! ## Extended attributes -/

/-- Once the offset is on the last character of `user.a`, the step is the
length of the empty string after it, and the loop stays there. -/
theorem CopyXAttr_loop_stuck (src_file dest_file : QString) (fuel : Nat) (w : World) :
    CopyXAttr_loop sysXattrOk src_file dest_file (cstr "user.a" ++ [0]) fuel 5 w = none := by
  induction fuel generalizing w with
  | zero => rfl
  | succ n ih =>
    have h5 : 5 + strlen (cstr "user.a" ++ [0]) (5 + 1) = 5 := by decide
    have hlt : 5 < (cstr "user.a" ++ [0]).length := by decide
    rw [CopyXAttr_loop, if_pos hlt]
    simp only [sysXattrOk, sysOk, Bool.not_true, Bool.false_eq_true, if_false]
    rw [h5]
    exact ih _

/-- On a system that lets every read succeed, also the read of a name that the
entry does not have, `CopyXAttr` does not return for the one name `user.a`,
whatever the fuel: after `user.a` the offset moves by the length of `ser.a`,
the loop reads and sets an attribute named `a`, and from there the offset
moves by 0. -/
theorem CopyXAttr_never_returns (fuel : Nat) :
    CopyXAttr sysXattrOk fuel (kMountPoint ++ "/a/b.txt".toList) "/target/a/b.txt".toList
      worldMid = none := by
  cases fuel with
  | zero => rfl
  | succ n =>
    have h0 : 0 + strlen (cstr "user.a" ++ [0]) (0 + 1) = 5 := by decide
    have hlt : 0 < (cstr "user.a" ++ [0]).length := by decide
    simp only [CopyXAttr, sysXattrOk, sysOk]
    rw [CopyXAttr_loop, if_pos hlt]
    simp only [Bool.not_true, Bool.false_eq_true, if_false]
    rw [h0]
    exact CopyXAttr_loop_stuck _ _ n _

/-- C5, the code at the failing input: an entry with the two attributes
`user.a` and `user.b`, whose name list packs the two names, each with its terminator; both can be read
and every attribute can be set, and no other name can be read. With any fuel
of two or more `CopyXAttr` returns true having set `user.a` alone: after
`user.a` the offset moves by the length of `ser.a`, to the last character of
the name, the loop asks for an attribute named `a`, that read fails and ends
the loop. `user.b` is neither read nor set. -/
theorem CopyXAttr_drops_later_names (fuel : ℕ) :
    (CopyXAttr sysXattrTwo (fuel + 2) (kMountPoint ++ "/a/b.txt".toList)
        "/target/a/b.txt".toList worldMid).map (fun r => (r.1, metaCalls r.2.log))
      = some (true,
          [Call.llistxattr (kMountPoint ++ "/a/b.txt".toList),
            Call.lgetxattr (kMountPoint ++ "/a/b.txt".toList) (cstr "user.a"),
            Call.lsetxattr "/target/a/b.txt".toList (cstr "user.a") (cstr "v1"),
            Call.lgetxattr (kMountPoint ++ "/a/b.txt".toList) (cstr "a")]) ∧
    sysXattrTwo.llistxattr (kMountPoint ++ "/a/b.txt".toList) XATTR_LIST_MAX
      = some (cstr "user.a" ++ [0] ++ cstr "user.b" ++ [0]) ∧
    sysXattrTwo.lgetxattr (kMountPoint ++ "/a/b.txt".toList) (cstr "user.b") XATTR_NAME_MAX
      = some (cstr "v2") ∧
    sysXattrTwo.lsetxattr "/target/a/b.txt".toList (cstr "user.b") (cstr "v2") = true := by
  refine ⟨?_, ?_, ?_, ?_⟩ <;> rfl

/-! ## Device nodes and modes -/

/-- C6, the code at the failing input: a character device with major 1 and
minor 3 (`st_rdev` 0x103) in a filesystem on device 7:0 (`st_dev` 0x700). The
one `mknod` call of `CopyItem` has the type bit of a character device, and
as device number 0x700, the device of the containing filesystem. -/
theorem CopyItem_mknod_uses_st_dev :
    (CopyItem sysChr 1 (kMountPoint ++ "/dev_node".toList) statChr worldMid).map
        (fun r => (r.1, mknodCalls r.2.log))
      = some (0, [("/target/dev_node".toList, 0o020666, 0x700)]) ∧
    statChr.st_rdev = 0x103 ∧ statChr.st_dev = 0x700 := by
  refine ⟨?_, ?_, ?_⟩ <;> rfl

/-- C7, the code at the failing input: a regular file whose permission bits
are 04755. The one `chmod` call of `CopyItem` has mode 0755: the mask is
0777 and takes the set-user-ID bit away. -/
theorem CopyItem_chmod_drops_setuid :
    (CopyItem sysSuid 1 (kMountPoint ++ "/usr/bin/sudo".toList) statSuid worldMid).map
        (fun r => (r.1, chmodCalls r.2.log))
      = some (0, [("/target/usr/bin/sudo".toList, 0o755)]) ∧
    statSuid.st_mode &&& 0o7777 = 0o4755 ∧ S_ISLNK statSuid.st_mode = false := by
  refine ⟨?_, ?_, ?_⟩ <;> rfl

/-- C8, the code at the failing input: a regular file created with success,
whose one attribute `user.a` cannot be read. `CopyItem` attempts the
permission update, the ownership update and the attribute copy, the read of
the value fails, and `CopyItem` still returns 0: the failed read leaves the
loop without recording a failure. -/
theorem CopyItem_ignores_failed_read :
    (CopyItem sysGetFails 1 (kMountPoint ++ "/a/b.txt".toList) statReg worldMid).map
        (fun r => (r.1, metaCalls r.2.log))
      = some (0, [Call.chmod "/target/a/b.txt".toList 0o640,
          Call.lchown "/target/a/b.txt".toList 1000 1000,
          Call.llistxattr (kMountPoint ++ "/a/b.txt".toList),
          Call.lgetxattr (kMountPoint ++ "/a/b.txt".toList) (cstr "user.a")]) ∧
    sysGetFails.lgetxattr (kMountPoint ++ "/a/b.txt".toList) (cstr "user.a") XATTR_NAME_MAX
      = none ∧
    (CopyXAttr sysGetFails 1 (kMountPoint ++ "/a/b.txt".toList) "/target/a/b.txt".toList
        worldMid).map Prod.fst = some true := by
  refine ⟨?_, ?_, ?_⟩ <;> rfl


/-! ## Progress value -/

theorem roundHalfEven_ge (x : ℚ) (k : ℤ) (h : (k : ℚ) ≤ x) : k ≤ roundHalfEven x := by
  have hk : k ≤ ⌊x⌋ := Int.le_floor.mpr h
  unfold roundHalfEven
  split_ifs <;> omega

theorem roundHalfEven_le (x : ℚ) (k : ℤ) (h : x ≤ (k : ℚ)) : roundHalfEven x ≤ k := by
  rcases eq_or_lt_of_le h with h | h
  · subst h
    simp [roundHalfEven]
  · have hk : ⌊x⌋ < k := Int.floor_lt.mpr h
    unfold roundHalfEven
    split_ifs <;> omega

theorem ulp_pos (q : ℚ) : 0 < ulp q := by
  unfold ulp; positivity

theorem log_lt_of_lt (q : ℚ) (n : ℕ) (hn : 0 < n) (h : |q| < 2 ^ n) : Int.log 2 |q| < n := by
  rcases eq_or_lt_of_le (abs_nonneg q) with h0 | h0
  · rw [← h0, Int.log_zero_right]
    exact_mod_cast hn
  · exact (Int.lt_zpow_iff_log_lt (b := 2) (R := ℚ) (by norm_num) (x := (n : ℤ)) h0).mp
      (by simpa using h)

/-- Every multiple of `2 ^ (-j)` is a multiple of the spacing at `q`, when `q`
is below `2 ^ (53 - j)`. -/
theorem grid_eq (q : ℚ) (m : ℤ) (j : ℕ) (h : Int.log 2 |q| + j ≤ 52) :
    ∃ K : ℤ, (m : ℚ) / 2 ^ j = K * ulp q := by
  refine ⟨m * 2 ^ (52 - j - Int.log 2 |q|).toNat, ?_⟩
  have hnn : 0 ≤ 52 - (j : ℤ) - Int.log 2 |q| := by omega
  have e1 : ((2 : ℚ) ^ (52 - (j : ℤ) - Int.log 2 |q|).toNat) = (2 : ℚ) ^ (52 - (j : ℤ) - Int.log 2 |q|) := by
    rw [← zpow_natCast, Int.toNat_of_nonneg hnn]
  unfold ulp
  push_cast
  rw [e1, mul_assoc, ← zpow_add₀ (by norm_num : (2 : ℚ) ≠ 0)]
  have : 52 - (j : ℤ) - Int.log 2 |q| + (Int.log 2 |q| - 52) = -(j : ℤ) := by ring
  rw [this, zpow_neg, zpow_natCast]
  ring

theorem fl_le_of_le_grid (q : ℚ) (m : ℤ) (j : ℕ) (h : Int.log 2 |q| + j ≤ 52)
    (hq : q ≤ (m : ℚ) / 2 ^ j) : fl q ≤ (m : ℚ) / 2 ^ j := by
  obtain ⟨K, hK⟩ := grid_eq q m j h
  have hu := ulp_pos q
  rw [hK] at hq ⊢
  have : q / ulp q ≤ K := by rw [div_le_iff₀ hu]; exact hq
  have := roundHalfEven_le _ _ this
  unfold fl
  exact mul_le_mul_of_nonneg_right (by exact_mod_cast this) hu.le

theorem le_fl_of_grid_le (q : ℚ) (m : ℤ) (j : ℕ) (h : Int.log 2 |q| + j ≤ 52)
    (hq : (m : ℚ) / 2 ^ j ≤ q) : (m : ℚ) / 2 ^ j ≤ fl q := by
  obtain ⟨K, hK⟩ := grid_eq q m j h
  have hu := ulp_pos q
  rw [hK] at hq ⊢
  have : (K : ℚ) ≤ q / ulp q := by rw [le_div_iff₀ hu]; exact hq
  have := roundHalfEven_ge _ _ this
  unfold fl
  exact mul_le_mul_of_nonneg_right (by exact_mod_cast this) hu.le

/-- A double that is an integer below `2 ^ 53` in size is exact. -/
theorem fl_intCast (m : ℤ) (h : |(m : ℚ)| < 2 ^ 53) : fl (m : ℚ) = m := by
  have hl : Int.log 2 |(m : ℚ)| + (0 : ℕ) ≤ 52 := by
    have := log_lt_of_lt (m : ℚ) 53 (by norm_num) h
    push_cast at this ⊢
    omega
  have h1 := fl_le_of_le_grid (m : ℚ) m 0 hl (by simp)
  have h2 := le_fl_of_grid_le (m : ℚ) m 0 hl (by simp)
  simp only [pow_zero, div_one] at h1 h2
  exact le_antisymm h1 h2

/-- The progress value is the integer quotient. -/
theorem progressOf_eq (c t : ℤ) (ht : t < 2 ^ 31) (hc1 : 1 ≤ c) (hct : c ≤ t) :
    progressOf c t = c * 100 / t := by
  have htpos : 0 < t := by omega
  have htq : (0 : ℚ) < t := by exact_mod_cast htpos
  unfold progressOf qFloor fdiv fmul
  have hmul : fl ((c : ℚ) * 100) = (c : ℚ) * 100 := by
    have := fl_intCast (c * 100) (by
      rw [abs_lt]
      constructor
      · have : (0 : ℚ) ≤ ((c * 100 : ℤ) : ℚ) := by exact_mod_cast (by omega : (0 : ℤ) ≤ c * 100)
        linarith [show (0 : ℚ) < 2 ^ 53 by positivity]
      · have : ((c * 100 : ℤ) : ℚ) < ((2 ^ 53 : ℤ) : ℚ) := by
          exact_mod_cast (by omega : c * 100 < 2 ^ 53)
        simpa using this)
    simpa using this
  rw [hmul]
  set n : ℤ := c * 100 / t with hn
  have hn0 : 0 ≤ n := Int.ediv_nonneg (by omega) htpos.le
  have hlow : n * t ≤ c * 100 := Int.ediv_mul_le _ (by omega)
  have hup : c * 100 < (n + 1) * t := Int.lt_ediv_add_one_mul_self _ htpos
  have hn100 : n ≤ 100 := by
    by_contra hcon
    have : 101 * t ≤ n * t := by nlinarith
    nlinarith
  set q : ℚ := (c : ℚ) * 100 / t with hq
  have hq0 : 0 < q := by
    have : (0 : ℚ) < c := by exact_mod_cast (by omega : (0 : ℤ) < c)
    positivity
  have hq100 : q ≤ 100 := by
    rw [hq, div_le_iff₀ htq]
    have : (c : ℚ) ≤ t := by exact_mod_cast hct
    linarith
  have hl : Int.log 2 |q| + (31 : ℕ) ≤ 52 := by
    have := log_lt_of_lt q 7 (by norm_num) (by rw [abs_of_pos hq0]; norm_num; linarith)
    push_cast at this ⊢
    omega
  have e1 : ((n * 2 ^ 31 : ℤ) : ℚ) / 2 ^ 31 = n := by
    push_cast; norm_num
  have e2 : (((n + 1) * 2 ^ 31 - 1 : ℤ) : ℚ) / 2 ^ 31 = (n : ℚ) + 1 - 1 / 2 ^ 31 := by
    push_cast; ring
  have hqlow : ((n * 2 ^ 31 : ℤ) : ℚ) / 2 ^ 31 ≤ q := by
    rw [e1, hq, le_div_iff₀ htq]
    exact_mod_cast hlow
  have hqup : q ≤ (((n + 1) * 2 ^ 31 - 1 : ℤ) : ℚ) / 2 ^ 31 := by
    rw [e2, hq, div_le_iff₀ htq]
    have h1 : (c : ℚ) * 100 + 1 ≤ (n + 1) * t := by
      exact_mod_cast (by omega : c * 100 + 1 ≤ (n + 1) * t)
    have h2 : (t : ℚ) / 2 ^ 31 ≤ 1 := by
      rw [div_le_one (by positivity)]
      exact_mod_cast ht.le
    have h3 : ((n : ℚ) + 1 - 1 / 2 ^ 31) * t = (n + 1) * t - t / 2 ^ 31 := by ring
    rw [h3]
    linarith
  have h1 := le_fl_of_grid_le q _ 31 hl hqlow
  have h2 := fl_le_of_le_grid q _ 31 hl hqup
  rw [e1] at h1
  rw [e2] at h2
  rw [Int.floor_eq_iff]
  refine ⟨h1, lt_of_le_of_lt h2 ?_⟩
  have : (0 : ℚ) < 1 / 2 ^ 31 := by positivity
  linarith

theorem progressOf_mono (c c' t : ℤ) (ht : t < 2 ^ 31) (hc1 : 1 ≤ c) (hcc : c ≤ c') (hct : c' ≤ t) :
    progressOf c t ≤ progressOf c' t := by
  rw [progressOf_eq c t ht hc1 (by omega), progressOf_eq c' t ht (by omega) hct]
  exact Int.ediv_le_ediv (by omega) (by omega)

theorem progressOf_self (t : ℤ) (ht1 : 1 ≤ t) (ht : t < 2 ^ 31) : progressOf t t = 100 := by
  rw [progressOf_eq t t ht ht1 le_rfl]
  exact Int.mul_ediv_cancel_left 100 (by omega)

/-- The attribute loop changes neither count. -/
theorem CopyXAttr_loop_counts (env : Sys) (src_file dest_file : QString) (list : Bytes)
    (fuel ns : Nat) (w w1 : World) (ok : Bool)
    (h : CopyXAttr_loop env src_file dest_file list fuel ns w = some (ok, w1)) :
    w1.g_total_files = w.g_total_files ∧ w1.g_current_files = w.g_current_files := by
  induction fuel generalizing ns w with
  | zero =>
    rw [CopyXAttr_loop] at h
    split_ifs at h
    cases h
    exact ⟨rfl, rfl⟩
  | succ n ih =>
    rw [CopyXAttr_loop] at h
    split_ifs at h with hlt
    · simp only at h
      split at h
      · cases h; exact ⟨rfl, rfl⟩
      · split_ifs at h
        · cases h; exact ⟨rfl, rfl⟩
        · have := ih _ _ h
          simpa [World.call] using this
    · cases h; exact ⟨rfl, rfl⟩

theorem CopyXAttr_counts (env : Sys) (fuel : Nat) (src_file dest_file : QString)
    (w w1 : World) (ok : Bool) (h : CopyXAttr env fuel src_file dest_file w = some (ok, w1)) :
    w1.g_total_files = w.g_total_files ∧ w1.g_current_files = w.g_current_files := by
  unfold CopyXAttr at h
  simp only at h
  split at h
  · cases h; exact ⟨rfl, rfl⟩
  · have := CopyXAttr_loop_counts _ _ _ _ _ _ _ _ _ h
    simpa [World.call] using this

/-- The metadata part of `CopyItem`, when it returns, has raised the count of
copied files by one and has written the progress for the new count last. -/
theorem CopyItem_meta_writes (env : Sys) (fuel : Nat) (fpath dest_file : QString) (st : Stat)
    (w w1 : World) (r : Int) (h : CopyItem_meta env fuel fpath dest_file st w = some (r, w1)) :
    w1.g_current_files = w.g_current_files + 1 ∧ w1.g_total_files = w.g_total_files ∧
    w1.log.getLast? =
      some (Call.WriteProgress (progressOf (w.g_current_files + 1) w.g_total_files)) := by
  unfold CopyItem_meta at h
  simp only at h
  split at h
  · cases h
  · rename_i xattr_ok w2 hx
    have hc := CopyXAttr_counts _ _ _ _ _ _ _ hx
    cases h
    split at hc <;>
      simp [WriteProgress, World.call] at hc ⊢ <;> simp [hc]

/-- C9: for an expected count `t >= 1` (an `int`, so below `2 ^ 31`) and a
completed count `c` with `1 <= c <= t`, the value that line 243 computes, and
that `CopyItem` writes after its c-th entry, is the floor of `c * 100 / t`; it
lies between 0 and 100, does not go down as `c` grows, and is 100 at
`c = t`. -/
theorem progress_value (t c : ℤ) (ht1 : 1 ≤ t) (ht : t < 2 ^ 31) (hc1 : 1 ≤ c) (hct : c ≤ t) :
    progressOf c t = c * 100 / t ∧
    0 ≤ progressOf c t ∧ progressOf c t ≤ 100 ∧
    (∀ c', c ≤ c' → c' ≤ t → progressOf c t ≤ progressOf c' t) ∧
    progressOf t t = 100 ∧
    (∀ (env : Sys) (fuel : Nat) (fpath dest_file : QString) (st : Stat) (w w1 : World) (r : Int),
      w.g_total_files = t → w.g_current_files + 1 = c →
      CopyItem_meta env fuel fpath dest_file st w = some (r, w1) →
      w1.log.getLast? = some (Call.WriteProgress (c * 100 / t))) := by
  have heq := progressOf_eq c t ht hc1 hct
  have h100 := progressOf_self t ht1 ht
  refine ⟨heq, ?_, ?_, ?_, h100, ?_⟩
  · rw [heq]; exact Int.ediv_nonneg (by omega) (by omega)
  · rw [← h100]; exact progressOf_mono c t t ht hc1 hct le_rfl
  · intro c' h1 h2; exact progressOf_mono c c' t ht hc1 h1 h2
  · intro env fuel fpath dest_file st w w1 r hw hc h
    have := (CopyItem_meta_writes env fuel fpath dest_file st w w1 r h).2.2
    rw [this, hc, hw, heq]

theorem progress_value_witness :
    progressOf 2 3 = 2 * 100 / 3 ∧
    0 ≤ progressOf 2 3 ∧ progressOf 2 3 ≤ 100 ∧
    (∀ c', 2 ≤ c' → c' ≤ 3 → progressOf 2 3 ≤ progressOf c' 3) ∧
    progressOf 3 3 = 100 ∧
    (∀ (env : Sys) (fuel : Nat) (fpath dest_file : QString) (st : Stat) (w w1 : World) (r : Int),
      w.g_total_files = 3 → w.g_current_files + 1 = 2 →
      CopyItem_meta env fuel fpath dest_file st w = some (r, w1) →
      w1.log.getLast? = some (Call.WriteProgress (2 * 100 / 3))) :=
  progress_value 3 2 (by decide) (by decide) (by decide) (by decide)


/-! ## Progress file -/

theorem decimal_length_pos (n : ℕ) : 0 < (decimal n).length := by
  unfold decimal
  split_ifs with h
  · simp
  · simp only [List.length_map, List.length_reverse]
    exact List.length_pos.mpr (Nat.digits_ne_nil_iff_ne_zero.mpr h)

theorem decimal_length_mono (a b : ℕ) (h : a ≤ b) : (decimal a).length ≤ (decimal b).length := by
  by_cases ha : a = 0
  · subst ha
    have := decimal_length_pos b
    simpa [decimal] using this
  · have hb : b ≠ 0 := by omega
    simp only [decimal, if_neg ha, if_neg hb, List.length_map, List.length_reverse]
    exact Nat.le_digits_len_le 10 a b h

theorem printf_d_length_mono (a b : ℤ) (ha : 0 ≤ a) (h : a ≤ b) :
    (printf_d a).length ≤ (printf_d b).length := by
  have hb : 0 ≤ b := le_trans ha h
  simp only [printf_d, if_neg (not_lt.mpr ha), if_neg (not_lt.mpr hb)]
  exact decimal_length_mono _ _ (by omega)

/-- One progress write on a stream at its start whose file is no longer than
its buffer: the old buffer becomes the whole file, the new text is buffered. -/
theorem WriteProgress_stream (v : ℤ) (w : World) (hs : w.g_progress_fd.seekable = true)
    (hp : w.g_progress_fd.pos = 0)
    (hlen : w.g_progress_fd.content.length ≤ w.g_progress_fd.buffer.length) :
    (WriteProgress v w).g_progress_fd.seekable = true ∧
    (WriteProgress v w).g_progress_fd.pos = 0 ∧
    (WriteProgress v w).g_progress_fd.content = w.g_progress_fd.buffer ∧
    (WriteProgress v w).g_progress_fd.buffer = printf_d v := by
  simp [WriteProgress, fputs, fseek_set0, fflush, hs, hp, List.drop_eq_nil_of_le hlen]

/-- After a sequence of non-negative values that never goes down, the buffer
holds the text of the last value, and the file is no longer than the buffer. -/
theorem writeAll_stream (values : List ℤ) (w : World)
    (hs : w.g_progress_fd.seekable = true) (hp : w.g_progress_fd.pos = 0)
    (hcb : w.g_progress_fd.content.length ≤ w.g_progress_fd.buffer.length)
    (hsorted : values.Pairwise (· ≤ ·)) (hnn : ∀ v ∈ values, 0 ≤ v)
    (hlen : ∀ v ∈ values, w.g_progress_fd.buffer.length ≤ (printf_d v).length) :
    (writeAll values w).g_progress_fd.seekable = true ∧
    (writeAll values w).g_progress_fd.pos = 0 ∧
    (writeAll values w).g_progress_fd.content.length ≤
      (writeAll values w).g_progress_fd.buffer.length ∧
    (writeAll values w).g_progress_fd.buffer =
      (match values.getLast? with
        | none => w.g_progress_fd.buffer
        | some u => printf_d u) := by
  induction values generalizing w with
  | nil => exact ⟨hs, hp, hcb, rfl⟩
  | cons a rest ih =>
    obtain ⟨h1, h2, h3, h4⟩ := WriteProgress_stream a w hs hp hcb
    have hp2 := List.pairwise_cons.mp hsorted
    have := ih (WriteProgress a w) h1 h2
      (by rw [h3, h4]; exact hlen a (List.mem_cons_self _ _)) hp2.2
      (fun v hv => hnn v (List.mem_cons_of_mem _ hv))
      (fun v hv => by
        rw [h4]
        exact printf_d_length_mono a v (hnn a (List.mem_cons_self _ _)) (hp2.1 v hv))
    simp only [writeAll, List.foldl_cons] at this ⊢
    refine ⟨this.1, this.2.1, this.2.2.1, ?_⟩
    rw [this.2.2.2, h4]
    cases rest with
    | nil => rfl
    | cons b r =>
      rw [List.getLast?_cons_cons, List.getLast?_eq_getLast (b :: r) (by simp)]

theorem progressCalls_sorted (t k : ℕ) (success : Bool) (ht : t < 2 ^ 31) (hk : k ≤ t) :
    (progressCalls t k success).Pairwise (· ≤ ·) ∧ ∀ v ∈ progressCalls t k success, 0 ≤ v := by
  have hT : (t : ℤ) < 2 ^ 31 := by exact_mod_cast ht
  have hval : ∀ i, i < k → 0 ≤ progressOf ((i : ℤ) + 1) t ∧ progressOf ((i : ℤ) + 1) t ≤ 100 := by
    intro i hi
    have h1 : (1 : ℤ) ≤ (i : ℤ) + 1 := by omega
    have h2 : (i : ℤ) + 1 ≤ t := by omega
    constructor
    · rw [progressOf_eq _ _ hT h1 h2]
      exact Int.ediv_nonneg (by omega) (by omega)
    · rw [← progressOf_self t (by omega) hT]
      exact progressOf_mono _ _ _ hT h1 h2 le_rfl
  unfold progressCalls
  constructor
  · rw [List.pairwise_append]
    refine ⟨?_, ?_, ?_⟩
    · rw [List.pairwise_map]
      refine List.Pairwise.imp_of_mem ?_ (List.pairwise_lt_range k)
      intro a b ha hb hab
      rw [List.mem_range] at ha hb
      exact progressOf_mono _ _ _ hT (by omega) (by omega) (by omega)
    · cases success <;> simp
    · intro a ha b hb
      rw [List.mem_map] at ha
      obtain ⟨i, hi, rfl⟩ := ha
      rw [List.mem_range] at hi
      cases success
      · simp at hb
      · simp at hb
        subst hb
        exact (hval i hi).2
  · intro v hv
    rw [List.mem_append] at hv
    rcases hv with hv | hv
    · rw [List.mem_map] at hv
      obtain ⟨i, hi, rfl⟩ := hv
      rw [List.mem_range] at hi
      exact (hval i hi).1
    · cases success
      · simp at hv
      · simp at hv
        subst hv
        norm_num

/-- The stream after a non-empty run of progress calls on the empty file: the
last value is in the buffer, the file holds the value before it, or nothing
after the first call. -/
theorem progressCalls_stream (t k : ℕ) (success : Bool) (w : World) (pre : List ℤ) (v : ℤ)
    (ht : t < 2 ^ 31) (hk : k ≤ t) (hfile : w.g_progress_fd = Stream.emptyFile)
    (hpre : pre ++ [v] <+: progressCalls t k success) :
    (writeAll (pre ++ [v]) w).g_progress_fd.pos = 0 ∧
    (writeAll (pre ++ [v]) w).g_progress_fd.buffer = printf_d v ∧
    (writeAll (pre ++ [v]) w).g_progress_fd.content =
      (match pre.getLast? with
        | none => []
        | some u => printf_d u) ∧
    (fclose (writeAll (pre ++ [v]) w).g_progress_fd).content = printf_d v := by
  obtain ⟨hsorted, hnn⟩ := progressCalls_sorted t k success ht hk
  have hsub : (pre ++ [v]).Sublist (progressCalls t k success) := hpre.sublist
  have hsub2 : pre.Sublist (progressCalls t k success) :=
    (List.sublist_append_left pre [v]).trans hsub
  have hs0 : (pre ++ [v]).Pairwise (· ≤ ·) := hsorted.sublist hsub
  obtain ⟨h1, h2, h3, h4⟩ := writeAll_stream pre w (by rw [hfile]; rfl) (by rw [hfile]; rfl)
    (by rw [hfile]; simp [Stream.emptyFile]) (hsorted.sublist hsub2)
    (fun x hx => hnn x (hsub2.subset hx)) (fun x _ => by rw [hfile]; simp [Stream.emptyFile])
  obtain ⟨g1, g2, g3, g4⟩ := WriteProgress_stream v (writeAll pre w) h1 h2 h3
  have hw : writeAll (pre ++ [v]) w = WriteProgress v (writeAll pre w) := by
    simp [writeAll, List.foldl_append]
  rw [hw]
  have hlen : (WriteProgress v (writeAll pre w)).g_progress_fd.content.length ≤
      (WriteProgress v (writeAll pre w)).g_progress_fd.buffer.length := by
    rw [g3, g4, h4, hfile]
    rcases hgl : pre.getLast? with _ | u
    · simp [Stream.emptyFile]
    · have hu : u ∈ pre := List.mem_of_getLast?_eq_some hgl
      have huv : u ≤ v := by
        rw [List.pairwise_append] at hs0
        exact hs0.2.2 u hu v (List.mem_singleton_self v)
      exact printf_d_length_mono u v (hnn u (hsub2.subset hu)) huv
  refine ⟨g2, g4, ?_, ?_⟩
  · rw [g3, h4, hfile]
    cases pre.getLast? <;> rfl
  · simp only [fclose, fflush, g2, List.take_zero, List.nil_append, zero_add,
      List.drop_eq_nil_of_le hlen, List.append_nil]
    exact g4

theorem CopySymLink_progressState (env : Sys) (src_file dest_file : QString) (w : World) :
    (CopySymLink env src_file dest_file w).2.progressState = w.progressState := by
  unfold CopySymLink
  simp only
  split
  · simp [World.progressState, World.call, progressWrites]
  · split_ifs <;> simp [World.progressState, World.call, progressWrites]

theorem SendFile_loop_progressState (env : Sys) (src_file dest_file : QString)
    (fuel num_to_read : ℕ) (w w1 : World) (ok : Bool)
    (h : SendFile_loop env src_file dest_file fuel num_to_read w = some (ok, w1)) :
    w1.progressState = w.progressState := by
  induction fuel generalizing num_to_read w with
  | zero =>
    rw [SendFile_loop] at h
    split_ifs at h
    cases h; rfl
  | succ n ih =>
    rw [SendFile_loop] at h
    split_ifs at h
    · cases h; rfl
    · simp only at h
      split_ifs at h
      · cases h; simp [World.progressState, World.call, progressWrites]
      · rw [ih _ _ h]; simp [World.progressState, World.call, progressWrites]

theorem SendFile_progressState (env : Sys) (fuel : ℕ) (src_file dest_file : QString)
    (file_size : ℕ) (w w1 : World) (ok : Bool)
    (h : SendFile env fuel src_file dest_file file_size w = some (ok, w1)) :
    w1.progressState = w.progressState := by
  unfold SendFile at h
  simp only at h
  split_ifs at h
  · cases h; simp [World.progressState, World.call, progressWrites]
  · cases h; simp [World.progressState, World.call, progressWrites]
  · split at h
    · cases h
    · rename_i ok1 w2 hl
      cases h
      have := SendFile_loop_progressState _ _ _ _ _ _ _ _ hl
      simp [World.progressState, World.call, progressWrites] at this ⊢
      exact this

theorem CopyItem_create_progressState (env : Sys) (fuel : ℕ) (fpath dest_file : QString)
    (sb st : Stat) (w w1 : World) (ok : Bool)
    (h : CopyItem_create env fuel fpath dest_file sb st w = some (ok, w1)) :
    w1.progressState = w.progressState := by
  unfold CopyItem_create at h
  simp only at h
  split_ifs at h
  · have := CopySymLink_progressState env fpath dest_file w
    rw [Option.some.injEq] at h
    rw [h] at this
    exact this
  · exact SendFile_progressState _ _ _ _ _ _ _ _ h
  all_goals
    cases h
    simp [World.progressState, World.call, progressWrites]

theorem CopyXAttr_loop_progressState (env : Sys) (src_file dest_file : QString) (list : Bytes)
    (fuel ns : ℕ) (w w1 : World) (ok : Bool)
    (h : CopyXAttr_loop env src_file dest_file list fuel ns w = some (ok, w1)) :
    w1.progressState = w.progressState := by
  induction fuel generalizing ns w with
  | zero =>
    rw [CopyXAttr_loop] at h
    split_ifs at h
    cases h; rfl
  | succ n ih =>
    rw [CopyXAttr_loop] at h
    split_ifs at h with hlt
    · simp only at h
      split at h
      · cases h; simp [World.progressState, World.call, progressWrites]
      · split_ifs at h
        · cases h; simp [World.progressState, World.call, progressWrites]
        · rw [ih _ _ h]; simp [World.progressState, World.call, progressWrites]
    · cases h; rfl

theorem CopyXAttr_progressState (env : Sys) (fuel : ℕ) (src_file dest_file : QString)
    (w w1 : World) (ok : Bool) (h : CopyXAttr env fuel src_file dest_file w = some (ok, w1)) :
    w1.progressState = w.progressState := by
  unfold CopyXAttr at h
  simp only at h
  split at h
  · cases h; simp [World.progressState, World.call, progressWrites]
  · rw [CopyXAttr_loop_progressState _ _ _ _ _ _ _ _ _ h]
    simp [World.progressState, World.call, progressWrites]

theorem writeAll_progressState (values : List ℤ) (w : World) :
    (writeAll values w).progressState =
      (values.foldl (fun f v => fputs (printf_d v) (fseek_set0 f)) w.g_progress_fd,
        w.g_total_files, w.g_current_files, progressWrites w.log ++ values) := by
  induction values generalizing w with
  | nil => simp [writeAll, World.progressState]
  | cons a rest ih =>
    have := ih (WriteProgress a w)
    simp only [writeAll, List.foldl_cons] at this ⊢
    rw [this]
    simp [WriteProgress, progressWrites, List.filterMap_append]

/-- What `CopyItem` does to the progress state when it returns: nothing, with
a non-zero result, or one more entry complete and its progress written. -/
theorem CopyItem_progressState (env : Sys) (fuel : ℕ) (fpath : QString) (sb : Stat)
    (w w1 : World) (r : ℤ) (h : CopyItem env fuel fpath sb w = some (r, w1)) :
    (r ≠ 0 ∧ w1.progressState = w.progressState) ∨
    w1.progressState =
      (fputs (printf_d (progressOf (w.g_current_files + 1) w.g_total_files))
          (fseek_set0 w.g_progress_fd),
        w.g_total_files, w.g_current_files + 1,
        progressWrites w.log ++ [progressOf (w.g_current_files + 1) w.g_total_files]) := by
  unfold CopyItem at h
  simp only at h
  split at h
  · cases h
    left
    exact ⟨by norm_num, by simp [World.progressState, World.call, progressWrites]⟩
  · split at h
    · cases h
    · rename_i st hst ok w2 hc
      have hcs := CopyItem_create_progressState _ _ _ _ _ _ _ _ _ hc
      have hw2 : w2.progressState = w.progressState := by
        rw [hcs]; simp [World.progressState, World.call, progressWrites]
      split_ifs at h
      · cases h
        left
        exact ⟨by norm_num, hw2⟩
      · right
        unfold CopyItem_meta at h
        simp only at h
        split at h
        · cases h
        · rename_i xattr_ok w3 hx
          have hxs := CopyXAttr_progressState _ _ _ _ _ _ _ hx
          cases h
          have hw3 : w3.progressState = w.progressState := by
            rw [hxs, ← hw2]
            split <;> simp [World.progressState, World.call, progressWrites]
          simp only [World.progressState, Prod.mk.injEq] at hw3
          obtain ⟨h1, h2, h3, h4⟩ := hw3
          simp [World.progressState, WriteProgress, progressWrites, List.filterMap_append,
            h1, h2, h3]
          exact h4

theorem entryValues_succ (c t : ℤ) (k : ℕ) :
    entryValues c t (k + 1) = progressOf (c + 1) t :: entryValues (c + 1) t k := by
  simp only [entryValues, List.range_succ_eq_map, List.map_cons, List.map_map]
  congr 1
  · simp
  · apply List.map_congr_left
    intro i _
    simp only [Function.comp_apply]
    congr 1
    push_cast
    ring

/-- The count walk adds the number of visited entries to the expected count
and leaves the rest of the progress state as it is. -/
theorem nftw_CountItem (entries : List (QString × Stat)) (walk_fails : Bool) (w : World) :
    ∃ w1, nftw CountItem entries walk_fails w = some (if walk_fails then -1 else 0, w1) ∧
      w1.progressState = (w.g_progress_fd, w.g_total_files + entries.length,
        w.g_current_files, progressWrites w.log) := by
  induction entries generalizing w with
  | nil => exact ⟨w, rfl, by simp [World.progressState]⟩
  | cons e rest ih =>
    obtain ⟨w1, h1, h2⟩ := ih { w with g_total_files := w.g_total_files + 1 }
    refine ⟨w1, ?_, ?_⟩
    · simp [nftw, CountItem, h1]
    · rw [h2]
      simp only [List.length_cons, Nat.cast_add, Nat.cast_one, Prod.mk.injEq, true_and, and_true]
      ring

/-- The copy walk, when it returns, has completed some `k` of its entries, all
of them when it returns 0, and has written their progress values in turn. -/
theorem nftw_CopyItem (env : Sys) (fuel : ℕ) (entries : List (QString × Stat))
    (walk_fails : Bool) (w w1 : World) (r : ℤ)
    (h : nftw (CopyItem env fuel) entries walk_fails w = some (r, w1)) :
    ∃ k, k ≤ entries.length ∧ (r = 0 → k = entries.length) ∧
      w1.progressState =
        ((entryValues w.g_current_files w.g_total_files k).foldl
            (fun f v => fputs (printf_d v) (fseek_set0 f)) w.g_progress_fd,
          w.g_total_files, w.g_current_files + k,
          progressWrites w.log ++ entryValues w.g_current_files w.g_total_files k) := by
  induction entries generalizing w with
  | nil =>
    refine ⟨0, le_rfl, fun _ => rfl, ?_⟩
    simp only [nftw, Option.some.injEq, Prod.mk.injEq] at h
    rw [← h.2]
    simp [entryValues, World.progressState]
  | cons e rest ih =>
    obtain ⟨fpath, sb⟩ := e
    rw [nftw] at h
    split at h
    · cases h
    · rename_i r2 w2 hc
      rcases CopyItem_progressState _ _ _ _ _ _ _ hc with ⟨hr, hs⟩ | hs
      · rw [if_pos hr] at h
        cases h
        refine ⟨0, Nat.zero_le _, fun h0 => absurd h0 hr, ?_⟩
        rw [hs]
        simp [entryValues, World.progressState]
      · simp only [World.progressState, Prod.mk.injEq] at hs
        obtain ⟨hs1, hs2, hs3, hs4⟩ := hs
        split_ifs at h with hr
        · cases h
          refine ⟨1, by simp, fun h0 => absurd h0 hr, ?_⟩
          simp [entryValues, World.progressState, hs1, hs2, hs3, hs4, List.range_succ]
        · obtain ⟨k, hk, hk0, hks⟩ := ih _ h
          refine ⟨k + 1, by simpa using hk, fun h0 => by simp [hk0 h0], ?_⟩
          rw [hks, entryValues_succ, hs1, hs2, hs3, hs4]
          simp only [List.foldl_cons, List.append_assoc, List.singleton_append, Nat.cast_add,
            Nat.cast_one, Prod.mk.injEq, true_and, and_true]
          ring

/-- A print after a repositioning keeps the stream the one it is. -/
theorem print_is_stdout (s : List Char) (f : Stream) :
    (fputs s (fseek_set0 f)).is_stdout = f.is_stdout := by
  unfold fputs fseek_set0 fflush
  split_ifs <;> rfl

theorem foldl_is_stdout (values : List ℤ) (f : Stream) :
    (values.foldl (fun f v => fputs (printf_d v) (fseek_set0 f)) f).is_stdout = f.is_stdout := by
  induction values generalizing f with
  | nil => rfl
  | cons a rest ih => rw [List.foldl_cons, ih, print_is_stdout]

theorem entryValues_zero (t k : ℕ) :
    entryValues 0 t k = (List.range k).map (fun (i : ℕ) => progressOf ((i : ℤ) + 1) (t : ℤ)) := by
  simp [entryValues]

/-- The `WriteProgress` calls of `CopyFiles`, when the destination folder can
be made and the progress file can be opened: with `t` the number of entries of
the count walk, they are the values for completed = 1, ..., k, where `k` is at
most the number of entries of the copy walk, then 100 when `CopyFiles`
succeeds; and the stream ends as these calls leave the empty file. -/
theorem CopyFiles_progressCalls (env : Sys) (fuel : ℕ) (src_dir dest_dir progress_file : QString)
    (w w1 : World) (ok : Bool)
    (hdirs : env.CreateDirs dest_dir = true)
    (hpf : progress_file ≠ []) (hopen : env.fopen_w progress_file = true)
    (ht0 : w.g_total_files = 0) (hc0 : w.g_current_files = 0)
    (h : CopyFiles env fuel src_dir dest_dir progress_file w = some (ok, w1)) :
    ∃ k, k ≤ (env.walk 1 src_dir).1.length ∧
      progressWrites w1.log =
        progressWrites w.log ++ progressCalls (env.walk 0 src_dir).1.length k ok ∧
      w1.g_progress_fd =
        fclose (writeAll (progressCalls (env.walk 0 src_dir).1.length k ok)
          { w with g_progress_fd := Stream.emptyFile }).g_progress_fd := by
  have hlen : progress_file.length ≠ 0 := by
    intro h0; exact hpf (List.length_eq_zero.mp h0)
  unfold CopyFiles at h
  simp only [hdirs, Bool.not_true, Bool.false_eq_true, if_false, hlen, ne_eq, not_false_eq_true,
    if_true, hopen] at h
  obtain ⟨w2, hcount, hw2⟩ := nftw_CountItem (env.walk 0 src_dir).1 (env.walk 0 src_dir).2
    ({ (w.call (Call.CreateDirs dest_dir) |>.call (Call.umask 0) |>.call
        (Call.fopen progress_file)) with
        g_progress_fd := Stream.emptyFile, g_src_dir := src_dir, g_dest_dir := dest_dir }.call
      (Call.nftw src_dir))
  rw [hcount] at h
  simp only [World.progressState, World.call, Prod.mk.injEq, ht0, hc0, zero_add] at hw2
  obtain ⟨hf2, ht2, hc2, hl2⟩ := hw2
  have hl2 : progressWrites w2.log = progressWrites w.log := by
    rw [hl2]; simp [progressWrites, List.filterMap_append]
  simp only at h
  have hfold : ∀ (values : List ℤ),
      (writeAll values { w with g_progress_fd := Stream.emptyFile }).g_progress_fd =
        values.foldl (fun f v => fputs (printf_d v) (fseek_set0 f)) Stream.emptyFile := by
    intro values
    have := writeAll_progressState values { w with g_progress_fd := Stream.emptyFile }
    simp only [World.progressState, Prod.mk.injEq] at this
    exact this.1
  generalize (if (env.walk 0 src_dir).2 = true then (-1 : ℤ) else 0) = r0 at h
  split at h
  · cases h
  · rename_i ok3 w3 hcopied
    simp only [Option.some.injEq, Prod.mk.injEq] at h
    obtain ⟨hok, hw1⟩ := h
    subst hok
    have hfinish : w3.g_progress_fd.is_stdout = false →
        progressWrites w1.log = progressWrites w3.log ++ (if ok3 then [100] else []) ∧
        w1.g_progress_fd = fclose ((if ok3 then [100] else []).foldl
          (fun f v => fputs (printf_d v) (fseek_set0 f)) w3.g_progress_fd) := by
      intro hstd
      rw [← hw1]
      cases ok3
      · simp [World.call, progressWrites, List.filterMap_append, hstd]
      · simp [WriteProgress, World.call, progressWrites, List.filterMap_append,
          print_is_stdout, hstd]
    split_ifs at hcopied with hcond
    · simp only [Option.some.injEq, Prod.mk.injEq] at hcopied
      obtain ⟨-, hw3⟩ := hcopied
      subst hw3
      have hfin := hfinish (by rw [hf2]; rfl)
      refine ⟨0, Nat.zero_le _, ?_, ?_⟩
      · rw [hfin.1, hl2]; simp [progressCalls]
      · rw [hfin.2, hfold, hf2]; simp [progressCalls]
    · split at hcopied
      · cases hcopied
      · rename_i r w4 hwalk
        simp only [Option.some.injEq, Prod.mk.injEq] at hcopied
        obtain ⟨hr, hw4⟩ := hcopied
        subst hw4
        obtain ⟨k, hk, -, hks⟩ := nftw_CopyItem _ _ _ _ _ _ _ hwalk
        simp only [World.progressState, World.call, Prod.mk.injEq, hf2, ht2, hc2] at hks
        obtain ⟨hs1, -, -, hs4⟩ := hks
        have hfin := hfinish (by rw [hs1, foldl_is_stdout]; rfl)
        refine ⟨k, hk, ?_, ?_⟩
        · rw [hfin.1, hs4, entryValues_zero]
          simp [progressCalls, progressWrites, List.filterMap_append] at hl2 ⊢
          rw [hl2]
        · rw [hfin.2, hfold, hs1, entryValues_zero]
          simp [progressCalls]

/-- The progress file when `CopyFiles` has returned, for a tree that is the
same in both walks: it holds the decimal text of the last value that was
handed to `WriteProgress`, and nothing else. -/
theorem CopyFiles_progress_file (env : Sys) (fuel : ℕ)
    (src_dir dest_dir progress_file : QString) (w w1 : World) (ok : Bool) (v : ℤ)
    (hdirs : env.CreateDirs dest_dir = true)
    (hpf : progress_file ≠ []) (hopen : env.fopen_w progress_file = true)
    (ht0 : w.g_total_files = 0) (hc0 : w.g_current_files = 0) (hlog : progressWrites w.log = [])
    (hwalk : (env.walk 1 src_dir).1.length ≤ (env.walk 0 src_dir).1.length)
    (ht : (env.walk 0 src_dir).1.length < 2 ^ 31)
    (h : CopyFiles env fuel src_dir dest_dir progress_file w = some (ok, w1))
    (hlast : (progressWrites w1.log).getLast? = some v) :
    w1.g_progress_fd.content = printf_d v := by
  obtain ⟨k, hk, hcalls, hfd⟩ :=
    CopyFiles_progressCalls env fuel src_dir dest_dir progress_file w w1 ok hdirs hpf hopen
      ht0 hc0 h
  rw [hlog, List.nil_append] at hcalls
  rw [hcalls, List.getLast?_eq_some_iff] at hlast
  obtain ⟨pre, hpre⟩ := hlast
  have := progressCalls_stream (env.walk 0 src_dir).1.length k ok
    { w with g_progress_fd := Stream.emptyFile } pre v ht (le_trans hk hwalk) rfl
    (by rw [hpre])
  rw [hfd, hpre]
  exact this.2.2.2

/-! ## A failed count walk -/

/-- The count walk returns: it visits every entry, adds their number to the
expected count, changes nothing else, and reports whether the walk failed. -/
theorem nftw_CountItem_eq (entries : List (QString × Stat)) (walk_fails : Bool) (w : World) :
    nftw CountItem entries walk_fails w =
      some (if walk_fails then -1 else 0,
        { w with g_total_files := w.g_total_files + entries.length }) := by
  induction entries generalizing w with
  | nil => simp [nftw]
  | cons e rest ih =>
    obtain ⟨fpath, sb⟩ := e
    simp only [nftw, CountItem, ne_eq, not_true_eq_false, if_false, ih, List.length_cons,
      Nat.cast_add, Nat.cast_one, Option.some.injEq, Prod.mk.injEq, true_and, World.mk.injEq,
      and_true]
    ring

/-- C11, the counterexample: the count walk visits one file and then reports
an error, and the copy walk from the state it would start in returns 0. Yet
`CopyFiles` returns false, and its calls hold one walk only: no entry is
looked at, nothing is copied, no progress is written. -/
theorem CopyFiles_count_error_counterexample :
    (CopyFiles sysCountFails 1 kMountPoint "/target".toList "/tmp/progress".toList
        World.init).map (fun r => (r.1, r.2.log))
      = some (false,
          [Call.CreateDirs "/target".toList, Call.umask 0, Call.fopen "/tmp/progress".toList,
            Call.nftw kMountPoint, Call.umask 0o022, Call.fclose]) ∧
    (sysCountFails.walk 0 kMountPoint).2 = true ∧
    (nftw (CopyItem sysCountFails 1) (sysCountFails.walk 1 kMountPoint).1
        (sysCountFails.walk 1 kMountPoint).2 worldCounted).map Prod.fst = some 0 := by
  refine ⟨?_, ?_, ?_⟩ <;> rfl

/-- C11, as amended: when the destination folder is there and the count walk
reports an error, `CopyFiles` returns, with failure. Its calls are the ones
around the count walk only: the copy walk is not run, no entry is copied and
no progress value is written; the expected count is what the count walk
gathered and the count of copied files is unchanged. -/
theorem CopyFiles_count_error_fails (env : Sys) (fuel : ℕ)
    (src_dir dest_dir progress_file : QString) (w : World)
    (hdirs : env.CreateDirs dest_dir = true) (herr : (env.walk 0 src_dir).2 = true) :
    ∃ w1, CopyFiles env fuel src_dir dest_dir progress_file w = some (false, w1) ∧
      w1.log = w.log ++ [Call.CreateDirs dest_dir, Call.umask 0] ++
        (if progress_file.length ≠ 0 then [Call.fopen progress_file] else []) ++
        [Call.nftw src_dir, Call.umask env.old_mask] ++
        (if progress_file.length ≠ 0 ∧ env.fopen_w progress_file = true then [Call.fclose]
          else []) ∧
      progressWrites w1.log = progressWrites w.log ∧
      w1.g_current_files = w.g_current_files ∧
      w1.g_total_files = w.g_total_files + (env.walk 0 src_dir).1.length := by
  unfold CopyFiles
  simp only [hdirs, Bool.not_true, Bool.false_eq_true, if_false, nftw_CountItem_eq, herr, if_true]
  by_cases hlen : progress_file.length ≠ 0
  · cases hopen : env.fopen_w progress_file <;>
      simp [hlen, hopen, World.call, progressWrites, List.filterMap_append, Stream.emptyFile]
  · simp [hlen, World.call, progressWrites, List.filterMap_append]

theorem CopyFiles_count_error_fails_witness :
    ∃ w1, CopyFiles sysCountFails 0 kMountPoint "/target".toList "/tmp/p".toList World.init
        = some (false, w1) ∧
      w1.log = World.init.log ++ [Call.CreateDirs "/target".toList, Call.umask 0] ++
        (if "/tmp/p".toList.length ≠ 0 then [Call.fopen "/tmp/p".toList] else []) ++
        [Call.nftw kMountPoint, Call.umask sysCountFails.old_mask] ++
        (if "/tmp/p".toList.length ≠ 0 ∧ sysCountFails.fopen_w "/tmp/p".toList = true then
          [Call.fclose] else []) ∧
      progressWrites w1.log = progressWrites World.init.log ∧
      w1.g_current_files = World.init.g_current_files ∧
      w1.g_total_files =
        World.init.g_total_files + (sysCountFails.walk 0 kMountPoint).1.length :=
  CopyFiles_count_error_fails sysCountFails 0 kMountPoint "/target".toList "/tmp/p".toList
    World.init rfl rfl

end Unsquashfs
